import Mathlib

/-!
Verification of the britecharts line-chart core (src/src/charts/line.js):
data normalization (cleanData), scale derivation (buildScales), y-axis tick
count (buildAxis), and the nearest-point interaction engine
(findOutNearestDate / getNearestDataPoint / handleMouseMove /
highlightDataPoints).

Modelling conventions:
* JS numbers are rationals (ℚ); `NaN`/`undefined` numeric results are `none`
  in an `Option`.  Timestamps (`Date.getTime()`) are integers (ℤ); an
  Invalid Date is `none : Option ℤ`.
* The raw `date` field of a sample is a value of an arbitrary type `K` with
  decidable equality, standing for the JS string the dataset carries;
  `new Date(raw)` is an explicit parameter `parseDate : K → Option ℤ`.
  Likewise the raw `value` field has type `V` and unary `+` is
  `toNum : V → Option ℚ`.  Field labels are the defaults
  (`date`/`value`/`topic`/`topicName`).
* `d3.nest().key(getDate).entries(flatData)` buckets the flat records by
  their raw date key in order of first appearance (`nestBy` below, a direct
  translation of the d3-collection loop).
* `d3.min`/`d3.max` skip `undefined`/`NaN` entries and return `undefined`
  on an effectively empty input (`jsMin*`/`jsMax*` below).
* An absent (`undefined`) `dataByTopic` is `none : Option (List _)`; the
  JS truthiness test `if (dataByTopic)` is a match on that option (an empty
  array is truthy, so `some []` takes the then-branch).
-/

namespace Brite

/-- A raw sample `{date: <raw>, value: <raw>}` as found in the input dataset. -/
structure RawSample (K V : Type) where
  date : K
  value : V
  deriving DecidableEq, Repr

/-- A raw topic `{topicName, topic, dates}` of the input dataset. -/
structure RawTopic (K V : Type) where
  topicName : String
  topic : Nat
  dates : List (RawSample K V)
  deriving DecidableEq, Repr

/-- One record of `flatData` in `cleanData`:
`{topicName: topic[topicNameLabel], name: topic[topicLabel], date: date[dateLabel], value: date[valueLabel]}`.
It keeps the raw (unparsed) date and value. -/
structure FlatItem (K V : Type) where
  topicName : String
  name : Nat
  date : K
  value : V
  deriving DecidableEq, Repr

/-- One entry of `dataByDate`: `{date: new Date(d.key), topics: d.values}`.
The `date` is the parsed key (none = Invalid Date); the `topics` are the flat
records of the bucket, still carrying raw dates and values. -/
structure DateEntry (K V : Type) where
  date : Option Int
  topics : List (FlatItem K V)
  deriving DecidableEq, Repr

/-- A sample of a topic after the in-place normalization pass
(`d.date = new Date(d[dateLabel]); d.value = +d[valueLabel]`). -/
structure CleanSample where
  date : Option Int
  value : Option ℚ
  deriving DecidableEq, Repr

/-- A topic after `cleanData` mutated its sample list in place. -/
structure CleanTopic where
  topicName : String
  topic : Nat
  dates : List CleanSample
  deriving DecidableEq, Repr

/-- The pair destructured from / returned by `cleanData`:
`{dataByTopic, dataByDate}`.  Either member is `none` when the corresponding
JS value is absent (`undefined`). -/
structure CleanResult (K V : Type) where
  dataByTopic : Option (List CleanTopic)
  dataByDate : Option (List (DateEntry K V))
  deriving DecidableEq, Repr

/-- The input of `cleanData`: the object bound as chart data, from which
`{dataByTopic, dataByDate}` is destructured. -/
structure RawInput (K V : Type) where
  dataByTopic : Option (List (RawTopic K V))
  dataByDate : Option (List (DateEntry K V))

/-- One step of d3-collection nesting: append `v` to the bucket keyed `k`,
creating the bucket at the end when the key is new.  Buckets stay in the
order the keys were first seen, matching the iteration order of the object
map d3.nest builds. -/
def insertNest {K V : Type} [DecidableEq K] (acc : List (K × List V)) (k : K)
    (v : V) : List (K × List V) :=
  match acc with
  | [] => [(k, [v])]
  | (k', vs) :: rest =>
      if k' = k then (k', vs ++ [v]) :: rest else (k', vs) :: insertNest rest k v

/-- `d3.nest().key(key).entries(l)` as bucket list in first-appearance key
order. -/
def nestBy {K V : Type} [DecidableEq K] (key : V → K) (l : List V) :
    List (K × List V) :=
  l.foldl (fun acc v => insertNest acc (key v) v) []

/-- `cleanData({dataByTopic, dataByDate})` from line.js (lines 396-441).
`parseDate` models `new Date(...)` on a raw date key, `toNum` models the
unary `+` on a raw value.  When `dataByTopic` is absent the inputs are
returned untouched; otherwise `dataByDate` is rebuilt by nesting the
flattened records by raw date key, and the topics' own sample lists are
normalized to parsed dates and numbers. -/
def cleanData {K V : Type} [DecidableEq K] (parseDate : K → Option Int)
    (toNum : V → Option ℚ) (input : RawInput K V) : CleanResult K V :=
  match input.dataByTopic with
  | none => { dataByTopic := none, dataByDate := input.dataByDate }
  | some ts =>
      let flatData : List (FlatItem K V) :=
        (ts.map (fun t => t.dates.map
          (fun d => ⟨t.topicName, t.topic, d.date, d.value⟩))).flatten
      let byDate : List (DateEntry K V) :=
        (nestBy (fun i => i.date) flatData).map
          (fun p => ⟨parseDate p.1, p.2⟩)
      let byTopic : List CleanTopic :=
        ts.map (fun t =>
          ⟨t.topicName, t.topic,
            t.dates.map (fun d => ⟨parseDate d.date, toNum d.value⟩)⟩)
      { dataByTopic := some byTopic, dataByDate := some byDate }

/-! ### d3-array min/max and JS numeric primitives

`d3.min(array, f)` (v1) skips accessor results that are `null`/`undefined`
or fail `b >= b` (NaN, Invalid Date), and yields `undefined` when nothing
remains. -/

/-- Fold step shared by `jsMax`-style reductions: ignore `none`, otherwise
combine with `max`. -/
def jsMaxStep (acc : Option ℚ) (v : Option ℚ) : Option ℚ :=
  match acc, v with
  | _, none => acc
  | none, some b => some b
  | some a, some b => some (max a b)

/-- `d3.max` over possibly-invalid rationals. -/
def jsMaxO (l : List (Option ℚ)) : Option ℚ :=
  l.foldl jsMaxStep none

/-- Fold step for `jsMin`-style reductions. -/
def jsMinStep (acc : Option ℚ) (v : Option ℚ) : Option ℚ :=
  match acc, v with
  | _, none => acc
  | none, some b => some b
  | some a, some b => some (min a b)

/-- `d3.min` over possibly-invalid rationals. -/
def jsMinO (l : List (Option ℚ)) : Option ℚ :=
  l.foldl jsMinStep none

/-- `d3.max` over possibly-invalid timestamps. -/
def jsMaxOI (l : List (Option Int)) : Option Int :=
  l.foldl (fun acc v =>
    match acc, v with
    | _, none => acc
    | none, some b => some b
    | some a, some b => some (max a b)) none

/-- `d3.min` over possibly-invalid timestamps. -/
def jsMinOI (l : List (Option Int)) : Option Int :=
  l.foldl (fun acc v =>
    match acc, v with
    | _, none => acc
    | none, some b => some b
    | some a, some b => some (min a b)) none

/-- `Math.abs` on a JS number that may be NaN/undefined
(`Math.abs(undefined)` is NaN, modelled as `none`). -/
def absO (v : Option ℚ) : Option ℚ := v.map (fun q => |q|)

/-- JS `<` between a possibly-NaN number and a plain number: any comparison
with NaN is false. -/
def ltO (a : Option ℚ) (b : ℚ) : Bool :=
  match a with
  | none => false
  | some q => decide (q < b)

/-! ### buildScales (line.js lines 343-369) -/

/-- The scale configuration `buildScales` derives.  `xDomain`/`yDomain` are
the pairs passed to `.domain([...])` (for the y scale: before `.nice()` is
applied), `xRange`/`yRange` the pairs passed to `.rangeRound([...])`, and
`colorDomain` the ordinal color-scale domain. -/
structure Scales where
  xDomain : Option Int × Option Int
  xRange : ℚ × ℚ
  yDomain : Option ℚ × Option ℚ
  yRange : ℚ × ℚ
  colorDomain : List Nat
  deriving DecidableEq, Repr

/-- `buildScales()` on the cleaned `dataByTopic`.  Follows the source:
nested `d3.min`/`d3.max` extrema, the (dead) conditional
`Math.abs(minY) < 0 ? Math.abs(minY) : 0` for the y-scale bottom value,
`Math.abs(maxY)` for the top, time range `[0, chartWidth]` and inverted
value range `[chartHeight, 0]`. -/
def buildScales (ts : List CleanTopic) (chartWidth chartHeight : ℚ) : Scales :=
  let minX := jsMinOI (ts.map (fun t => jsMinOI (t.dates.map (fun d => d.date))))
  let maxX := jsMaxOI (ts.map (fun t => jsMaxOI (t.dates.map (fun d => d.date))))
  let maxY := jsMaxO (ts.map (fun t => jsMaxO (t.dates.map (fun d => d.value))))
  let minY := jsMinO (ts.map (fun t => jsMinO (t.dates.map (fun d => d.value))))
  let yScaleBottomValue := if ltO (absO minY) 0 then absO minY else some 0
  { xDomain := (minX, maxX)
    xRange := (0, chartWidth)
    yDomain := (yScaleBottomValue, absO maxY)
    yRange := (chartHeight, 0)
    colorDomain := ts.map (fun t => t.topic) }

/-- `buildScales` as called from `exports`: reading an absent
`dataByTopic` throws (`array.length` of `undefined` inside `d3.min`), so
the absent case produces no scales. -/
def buildScalesOpt (ts : Option (List CleanTopic)) (chartWidth chartHeight : ℚ) :
    Option Scales :=
  ts.map (fun l => buildScales l chartWidth chartHeight)

/-- The `topicColorMap` built at the end of `buildScales`:
`colorScale.domain().reduce((memo, item, i) => { memo[item] = range[i]; ... })`.
Topic ids are unique across a dataset, so the first index lookup matches the
reduce; an index past the palette yields `undefined`.  The palette entries
are opaque color values (hex strings in the shipped schemas) of an
arbitrary type `Color`. -/
def topicColorMap {Color : Type} (colorSchema : List Color)
    (topicIds : List Nat) : Nat → Option Color :=
  fun id =>
    match topicIds.findIdx? (fun t => t = id) with
    | none => none
    | some i => colorSchema[i]?

/-! ### buildAxis (line.js lines 254-287): y tick count -/

/-- The y tick count of `buildAxis`:
`dataTimeSpan < verticalTicks - 1 ? dataTimeSpan : verticalTicks` where
`dataTimeSpan = yScale.domain()[1] - yScale.domain()[0]`. -/
def yTickNumber (domain0 domain1 verticalTicks : ℚ) : ℚ :=
  let dataTimeSpan := domain1 - domain0
  if dataTimeSpan < verticalTicks - 1 then dataTimeSpan else verticalTicks

/-! ### Interaction engine (line.js lines 607-723)

The nearest-point machinery works on the `dataByDate` entries.  The claims
about it quantify over sorted indices of valid dates, so its entries here
carry a plain integer timestamp; the per-topic payload is what
`highlightDataPoints` consumes (`none` standing for a falsy slot the
defensive `filter(t => !!t)` would drop). -/

/-- The per-topic record a date entry carries into highlighting:
`{name, value}` with `name` the topic id. -/
structure TopicItem where
  name : Nat
  value : ℚ
  deriving DecidableEq, Repr

/-- A `dataByDate` entry as consumed by the interaction engine. -/
structure DatePoint where
  date : Int
  topics : List (Option TopicItem)
  deriving DecidableEq, Repr

/-- Body of d3-array's `bisector(...).left` binary-search loop:
`while (lo < hi) { mid = (lo + hi) >>> 1; if (f(a[mid]) < x) lo = mid + 1; else hi = mid; } return lo;`.
The extra `fuel` argument makes the recursion structural; `hi - lo` steps
always suffice because every iteration shrinks the interval. -/
def bisectLeftFuel (l : List DatePoint) (x : Int) :
    Nat → Nat → Nat → Nat
  | 0, lo, _ => lo
  | fuel + 1, lo, hi =>
      if lo < hi then
        if (l.getD ((lo + hi) / 2) ⟨0, []⟩).date < x then
          bisectLeftFuel l x fuel ((lo + hi) / 2 + 1) hi
        else bisectLeftFuel l x fuel lo ((lo + hi) / 2)
      else lo

/-- `d3Array.bisector(getDate).left(l, x, lo)` with `hi` defaulting to
`l.length`. -/
def bisectLeft (l : List DatePoint) (x : Int) (lo hi : Nat) : Nat :=
  bisectLeftFuel l x (hi - lo) lo hi

/-- `findOutNearestDate(x0, d0, d1)` (lines 614-616):
`x0 - d0.date > d1.date - x0 ? d0 : d1`. -/
def findOutNearestDate (x0 : Int) (d0 d1 : DatePoint) : DatePoint :=
  if x0 - d0.date > d1.date - x0 then d0 else d1

/-- `getNearestDataPoint(mouseX)` (lines 632-647).  `invert` models
`xScale.invert`.  The bisection runs with `lo = 1`; the candidate at the
insertion index and the one before it are compared when both exist,
otherwise the one at the insertion index (possibly `undefined`) is
returned. -/
def getNearestDataPoint (invert : Int → Int) (dataByDate : List DatePoint)
    (mouseX : Int) : Option DatePoint :=
  let dateFromInvertedX := invert mouseX
  let dataEntryIndex := bisectLeft dataByDate dateFromInvertedX 1 dataByDate.length
  let dataEntryForXPosition := dataByDate[dataEntryIndex]?
  let previousDataEntryForXPosition := dataByDate[dataEntryIndex - 1]?
  match previousDataEntryForXPosition, dataEntryForXPosition with
  | some d1, some d0 => some (findOutNearestDate dateFromInvertedX d0 d1)
  | _, _ => dataEntryForXPosition

/-! ### highlightDataPoints (lines 699-723): topic ordering -/

/-- JS `<` on two possibly-undefined color values, given the boolean order
`ltc` that JS `<` induces on the color literals themselves (lexicographic
string comparison in the source); comparisons involving `undefined` are
false (`NaN` after coercion). -/
def ltColorO {Color : Type} (ltc : Color → Color → Bool)
    (a b : Option Color) : Bool :=
  match a, b with
  | some x, some y => ltc x y
  | _, _ => false

/-- The comparator of `highlightDataPoints`,
`(a, b) => topicColorMap[a.name] < topicColorMap[b.name]`, after JS
coerces its boolean result to a number: 1 for true, 0 for false — never
negative. -/
def highlightComparator {Color : Type} (ltc : Color → Color → Bool)
    (cmap : Nat → Option Color) (a b : TopicItem) : Int :=
  if ltColorO ltc (cmap a.name) (cmap b.name) then 1 else 0

/-- Insert into the reversed already-processed prefix following
`Array.prototype.sort`'s insertion sort for small arrays: shift elements
right while the comparator applied to (shifted element, inserted element)
is positive. -/
def jsInsert {α : Type} (cmp : α → α → Int) (x : α) :
    List α → List α
  | [] => [x]
  | y :: ys => if cmp y x > 0 then y :: jsInsert cmp x ys else x :: y :: ys

/-- `Array.prototype.sort(cmp)` under insertion-sort semantics (what JS
engines use for short arrays, as the hover payloads are). -/
def jsSort {α : Type} (cmp : α → α → Int) (l : List α) : List α :=
  (l.foldl (fun acc x => jsInsert cmp x acc) []).reverse

/-- The data part of `highlightDataPoints`:
`dataPoint.topics.filter(t => !!t).sort((a, b) => topicColorMap[a.name] < topicColorMap[b.name])`. -/
def highlightDataPoints {Color : Type} (ltc : Color → Color → Bool)
    (cmap : Nat → Option Color) (topics : List (Option TopicItem)) :
    List TopicItem :=
  jsSort (highlightComparator ltc cmap) (topics.filterMap id)

/-! ### handleMouseMove (lines 654-668) -/

/-- The observable effects of one `handleMouseMove` invocation when a data
point was located: the vertical-marker translation, the reordered highlight
topics, and the `customMouseMove` payload `(dataPoint, xPosition)`. -/
structure MouseMoveEffects where
  markerX : Int
  highlighted : List TopicItem
  eventPoint : DatePoint
  eventX : Int
  deriving DecidableEq, Repr

/-- `handleMouseMove()`: offset the mouse x by `-margin.left`, locate the
nearest data point, and only if one was found move the marker, highlight
its topics and emit `customMouseMove`.  `xsc` models `xScale`.  A `none`
result is an invocation with no marker movement, no highlight change and no
event. -/
def handleMouseMove {Color : Type} (invert xsc : Int → Int)
    (ltc : Color → Color → Bool) (cmap : Nat → Option Color)
    (marginLeft : Int) (dataByDate : List DatePoint) (mouseX : Int) :
    Option MouseMoveEffects :=
  let xPositionOffset := -marginLeft
  match getNearestDataPoint invert dataByDate (mouseX + xPositionOffset) with
  | none => none
  | some dataPoint =>
      let dataPointXPosition := xsc dataPoint.date
      some ⟨dataPointXPosition, highlightDataPoints ltc cmap dataPoint.topics,
            dataPoint, dataPointXPosition⟩

/-! ### First-appearance deduplication

Characterizes the key order `nestBy` produces: `List.dedup` keeps the last
occurrence of each element, so deduplicating the reverse and reversing back
keeps the first occurrence of each key, in first-appearance order. -/

/-- The distinct elements of `l` in order of first appearance. -/
def dedupFirst {K : Type} [DecidableEq K] (l : List K) : List K :=
  l.reverse.dedup.reverse

/-- The bucket list `nestBy` is proved to coincide with: one bucket per
distinct key in first-appearance order, each holding the records with that
key in input order. -/
def bucketsOf {K V : Type} [DecidableEq K] (key : V → K) (l : List V) :
    List (K × List V) :=
  (dedupFirst (l.map key)).map (fun k => (k, l.filter (fun v => key v = k)))

/-! ### Concrete instantiations used by witnesses and counterexamples -/

/-- Date parsing where the raw keys already are timestamps. -/
def parseId : Nat → Option Int := fun k => some (k : Int)

/-- Date parsing where distinct raw keys can denote the same instant
(e.g. `2020-01-01T00:00:00Z` vs `2020-01-01T00:00:00.000Z`): keys `10*t`
to `10*t+9` all parse to timestamp `t`. -/
def parseDiv10 : Nat → Option Int := fun k => some ((k : Int) / 10)

/-- Date parsing where the raw key 99 is unparsable (Invalid Date). -/
def parseFail : Nat → Option Int := fun k => if k = 99 then none else some (k : Int)

/-- Value coercion for raw values that already are numbers. -/
def toNumId : ℚ → Option ℚ := some

/-- The flattened value accessors of a cleaned dataset, for stating what
`maxValue` is. -/
def valuesOf (ts : List CleanTopic) : List (Option ℚ) :=
  (ts.map (fun t => t.dates.map (fun d => d.value))).flatten

/-- The `flatData` list `cleanData` builds before nesting, one record per
sample with raw date and value. -/
def flatOf {K V : Type} (ts : List (RawTopic K V)) : List (FlatItem K V) :=
  (ts.map (fun t => t.dates.map
    (fun d => ⟨t.topicName, t.topic, d.date, d.value⟩))).flatten

/-- Whether a by-date sequence is sorted strictly ascending by its parsed
dates (an Invalid Date never compares below anything, as in JS). -/
def sortedStrictB : List (Option Int) → Bool
  | [] => true
  | [_] => true
  | a :: b :: rest =>
      (match a, b with
        | some x, some y => decide (x < y)
        | _, _ => false) && sortedStrictB (b :: rest)

/-- The `(topic, date, value)` triples of a normalized by-topic index. -/
def topicTriples (ts : List CleanTopic) : List (Nat × Option Int × Option ℚ) :=
  (ts.map (fun t => t.dates.map (fun s => (t.topic, s.date, s.value)))).flatten

/-- The parsed `(topic, date, value)` triple of one flat record. -/
def itemTriple {K V : Type} (parseDate : K → Option Int) (toNum : V → Option ℚ)
    (i : FlatItem K V) : Nat × Option Int × Option ℚ :=
  (i.name, parseDate i.date, toNum i.value)

/-- The parsed `(topic, date, value)` triples inside one by-date entry's
topic list. -/
def entryTriples {K V : Type} (parseDate : K → Option Int)
    (toNum : V → Option ℚ) (e : DateEntry K V) :
    List (Nat × Option Int × Option ℚ) :=
  e.topics.map (itemTriple parseDate toNum)

end Brite

/-! ## Helper lemmas -/

namespace Brite

theorem jsMaxStep_none_left (v : Option ℚ) : jsMaxStep none v = v := by
  cases v <;> rfl

theorem jsMaxStep_none_right (a : Option ℚ) : jsMaxStep a none = a := by
  cases a <;> rfl

theorem jsMaxStep_assoc (a b c : Option ℚ) :
    jsMaxStep (jsMaxStep a b) c = jsMaxStep a (jsMaxStep b c) := by
  cases a <;> cases b <;> cases c <;> simp [jsMaxStep, max_assoc]

theorem foldl_jsMaxStep (l : List (Option ℚ)) :
    ∀ acc, l.foldl jsMaxStep acc = jsMaxStep acc (jsMaxO l) := by
  induction l with
  | nil => intro acc; simp [jsMaxO, jsMaxStep_none_right]
  | cons v l ih =>
      intro acc
      simp only [List.foldl_cons, jsMaxO] at *
      rw [ih (jsMaxStep acc v), ih (jsMaxStep none v), jsMaxStep_none_left,
        jsMaxStep_assoc]

theorem jsMaxO_append (l₁ l₂ : List (Option ℚ)) :
    jsMaxO (l₁ ++ l₂) = jsMaxStep (jsMaxO l₁) (jsMaxO l₂) := by
  simp only [jsMaxO, List.foldl_append]
  exact foldl_jsMaxStep l₂ (jsMaxO l₁)

/-- Nested `d3.max` over topics equals the flat `d3.max` over all values. -/
theorem jsMaxO_flatten (ls : List (List (Option ℚ))) :
    jsMaxO ls.flatten = jsMaxO (ls.map jsMaxO) := by
  induction ls with
  | nil => rfl
  | cons l ls ih =>
      rw [List.flatten_cons, jsMaxO_append, ih, List.map_cons]
      show _ = List.foldl jsMaxStep (jsMaxStep none (jsMaxO l)) (ls.map jsMaxO)
      rw [jsMaxStep_none_left, foldl_jsMaxStep]

theorem ltO_absO_zero (v : Option ℚ) : ltO (absO v) 0 = false := by
  cases v with
  | none => rfl
  | some q => simp [ltO, absO, abs_nonneg, not_lt.mpr (abs_nonneg q)]

section Nesting

variable {K V : Type} [DecidableEq K]

theorem mem_dedupFirst {a : K} {l : List K} : a ∈ dedupFirst l ↔ a ∈ l := by
  simp [dedupFirst]

theorem nodup_dedupFirst (l : List K) : (dedupFirst l).Nodup :=
  List.nodup_reverse.mpr (List.nodup_dedup _)

theorem dedupFirst_append_singleton (xs : List K) (x : K) :
    dedupFirst (xs ++ [x]) =
      if x ∈ xs then dedupFirst xs else dedupFirst xs ++ [x] := by
  by_cases hm : x ∈ xs
  · rw [if_pos hm]
    simp [dedupFirst, List.dedup_cons_of_mem, hm]
  · rw [if_neg hm]
    have : x ∉ xs.reverse := by simpa using hm
    simp [dedupFirst, List.dedup_cons_of_not_mem, this]

theorem insertNest_of_not_mem (acc : List (K × List V)) (k : K) (v : V)
    (hk : k ∉ acc.map Prod.fst) : insertNest acc k v = acc ++ [(k, [v])] := by
  induction acc with
  | nil => rfl
  | cons p rest ih =>
      obtain ⟨k', vs⟩ := p
      simp only [List.map_cons, List.mem_cons] at hk
      push_neg at hk
      rw [insertNest, if_neg (fun h => hk.1 h.symm)]
      rw [ih hk.2]
      rfl

theorem insertNest_of_mem (acc : List (K × List V)) (k : K) (v : V)
    (hnd : (acc.map Prod.fst).Nodup) (hk : k ∈ acc.map Prod.fst) :
    insertNest acc k v =
      acc.map (fun p => if p.1 = k then (p.1, p.2 ++ [v]) else p) := by
  induction acc with
  | nil => cases hk
  | cons p rest ih =>
      obtain ⟨k', vs⟩ := p
      simp only [List.map_cons, List.nodup_cons] at hnd
      by_cases h : k' = k
      · subst h
        rw [insertNest, if_pos rfl, List.map_cons, if_pos rfl]
        have hrest : rest.map (fun p => if p.1 = k' then (p.1, p.2 ++ [v]) else p) =
            rest := by
          trans (rest.map id)
          · apply List.map_congr_left
            intro a ha
            have hne : a.1 ≠ k' := by
              intro he
              exact hnd.1 (he ▸ List.mem_map_of_mem Prod.fst ha)
            rw [if_neg hne]
            rfl
          · exact List.map_id rest
        rw [hrest]
      · simp only [List.map_cons, List.mem_cons] at hk
        rcases hk with hk | hk
        · exact absurd hk.symm h
        · rw [insertNest, if_neg h, ih hnd.2 hk, List.map_cons,
            if_neg (by simpa using h)]

/-- The nesting `cleanData` performs coincides with: one bucket per
distinct key in first-appearance order, each bucket filtering the input by
its key. -/
theorem nestBy_eq (key : V → K) (l : List V) : nestBy key l = bucketsOf key l := by
  induction l using List.reverseRecOn with
  | nil => rfl
  | append_singleton l v ih =>
      have hstep : nestBy key (l ++ [v]) = insertNest (nestBy key l) (key v) v := by
        rw [nestBy, nestBy, List.foldl_append, List.foldl_cons, List.foldl_nil]
      have hkeys : (bucketsOf key l).map Prod.fst = dedupFirst (l.map key) := by
        rw [bucketsOf, List.map_map]
        exact List.map_id _
      rw [hstep, ih]
      by_cases hm : key v ∈ l.map key
      · have hmem : key v ∈ (bucketsOf key l).map Prod.fst := by
          rw [hkeys]; exact mem_dedupFirst.mpr hm
        have hnd : ((bucketsOf key l).map Prod.fst).Nodup := by
          rw [hkeys]; exact nodup_dedupFirst _
        rw [insertNest_of_mem _ _ _ hnd hmem, bucketsOf, List.map_map,
          bucketsOf, List.map_append]
        simp only [List.map_cons, List.map_nil]
        rw [dedupFirst_append_singleton, if_pos hm]
        apply List.map_congr_left
        intro k hk
        simp only [Function.comp]
        by_cases hkv : k = key v
        · rw [if_pos hkv, List.filter_append]
          subst hkv
          simp
        · rw [if_neg hkv, List.filter_append]
          have : List.filter (fun w => decide (key w = k)) [v] = [] := by
            simp only [List.filter]
            rw [decide_eq_false (by simpa [eq_comm] using hkv)]
          rw [this, List.append_nil]
      · have hnotmem : key v ∉ (bucketsOf key l).map Prod.fst := by
          rw [hkeys]; exact fun h => hm (mem_dedupFirst.mp h)
        rw [insertNest_of_not_mem _ _ _ hnotmem, bucketsOf, bucketsOf,
          List.map_append]
        simp only [List.map_cons, List.map_nil]
        rw [dedupFirst_append_singleton, if_neg hm, List.map_append]
        congr 1
        · apply List.map_congr_left
          intro k hk
          have hkv : key v ≠ k := by
            intro he
            exact hm (he ▸ mem_dedupFirst.mp hk)
          rw [List.filter_append]
          have : List.filter (fun w => decide (key w = k)) [v] = [] := by
            simp only [List.filter]
            rw [decide_eq_false (by simpa using hkv)]
          rw [this, List.append_nil]
        · simp only [List.map_cons, List.map_nil, List.filter_append]
          have h1 : List.filter (fun w => decide (key w = key v)) l = [] := by
            rw [List.filter_eq_nil_iff]
            intro a ha
            simp only [decide_eq_true_eq]
            exact fun he => hm (he ▸ List.mem_map_of_mem key ha)
          have h2 : List.filter (fun w => decide (key w = key v)) [v] = [v] := by
            simp
          rw [h1, h2, List.nil_append]

/-- What `cleanData` stores in `dataByDate` when the raw by-topic data is
present: one entry per distinct raw date key, in first-appearance order,
the entry's date being the parsed key and its topic list the flat records
carrying that exact raw key. -/
theorem cleanData_byDate_eq (parseDate : K → Option Int)
    (toNum : V → Option ℚ) (ts : List (RawTopic K V))
    (dbd : Option (List (DateEntry K V))) :
    (cleanData parseDate toNum ⟨some ts, dbd⟩).dataByDate =
      some ((dedupFirst ((flatOf ts).map (fun i => i.date))).map
        (fun k => ⟨parseDate k, (flatOf ts).filter (fun i => i.date = k)⟩)) := by
  show some ((nestBy (fun i => i.date) (flatOf ts)).map
    (fun p => (⟨parseDate p.1, p.2⟩ : DateEntry K V))) = _
  rw [nestBy_eq, bucketsOf, List.map_map]
  rfl

omit [DecidableEq K] in
/-- The triples of the normalized by-topic index are precisely the parsed
triples of the flat records. -/
theorem topicTriples_eq (parseDate : K → Option Int) (toNum : V → Option ℚ)
    (ts : List (RawTopic K V)) :
    topicTriples (ts.map (fun t => ⟨t.topicName, t.topic,
        t.dates.map (fun d => ⟨parseDate d.date, toNum d.value⟩)⟩)) =
      (flatOf ts).map (itemTriple parseDate toNum) := by
  simp only [topicTriples, flatOf, List.map_map, List.map_flatten]
  congr 1
  apply List.map_congr_left
  intro t ht
  simp only [Function.comp, List.map_map]
  rfl

end Nesting

/-- The date at JS index `j` as the bisector reads it. -/
def dateAt (l : List DatePoint) (j : Nat) : Int := (l.getD j ⟨0, []⟩).date

theorem dateAt_mono (l : List DatePoint)
    (hs : l.Pairwise (fun a b => a.date < b.date)) {i j : Nat} (hij : i ≤ j)
    (hj : j < l.length) : dateAt l i ≤ dateAt l j := by
  rcases Nat.eq_or_lt_of_le hij with rfl | hlt
  · exact le_refl _
  · have hi : i < l.length := lt_trans hlt hj
    have h := List.pairwise_iff_getElem.mp hs i j hi hj hlt
    rw [dateAt, dateAt, List.getD_eq_getElem _ _ hi, List.getD_eq_getElem _ _ hj]
    exact le_of_lt h

/-- Full characterization of the bisector's binary-search loop on a sorted
index: the result splits `[lo, hi)` into dates below the probe and dates at
or above it. -/
theorem bisectLeftFuel_spec (l : List DatePoint) (x : Int)
    (hs : l.Pairwise (fun a b => a.date < b.date)) :
    ∀ fuel lo hi : Nat, hi - lo ≤ fuel → lo ≤ hi → hi ≤ l.length →
      lo ≤ bisectLeftFuel l x fuel lo hi ∧
      bisectLeftFuel l x fuel lo hi ≤ hi ∧
      (∀ j, lo ≤ j → j < bisectLeftFuel l x fuel lo hi → dateAt l j < x) ∧
      (∀ j, bisectLeftFuel l x fuel lo hi ≤ j → j < hi → x ≤ dateAt l j) := by
  intro fuel
  induction fuel with
  | zero =>
      intro lo hi hf hlh _
      have heq : lo = hi := by omega
      subst heq
      exact ⟨le_refl _, le_refl _, fun j h1 h2 => by simp [bisectLeftFuel] at h2; omega,
        fun j h1 h2 => by simp [bisectLeftFuel] at h1; omega⟩
  | succ fuel ih =>
      intro lo hi hf hlh hhl
      rw [bisectLeftFuel]
      by_cases hc : lo < hi
      · rw [if_pos hc]
        have hmlt : (lo + hi) / 2 < hi := by omega
        have hmge : lo ≤ (lo + hi) / 2 := by omega
        by_cases hd : (l.getD ((lo + hi) / 2) ⟨0, []⟩).date < x
        · rw [if_pos hd]
          obtain ⟨h1, h2, h3, h4⟩ :=
            ih ((lo + hi) / 2 + 1) hi (by omega) (by omega) hhl
          refine ⟨by omega, h2, ?_, h4⟩
          intro j hj1 hj2
          by_cases hjm : j ≤ (lo + hi) / 2
          · exact lt_of_le_of_lt
              (dateAt_mono l hs hjm (lt_of_lt_of_le hmlt hhl)) hd
          · exact h3 j (by omega) hj2
        · rw [if_neg hd]
          push_neg at hd
          obtain ⟨h1, h2, h3, h4⟩ :=
            ih lo ((lo + hi) / 2) (by omega) (by omega) (by omega)
          refine ⟨h1, by omega, h3, ?_⟩
          intro j hj1 hj2
          by_cases hjm : (lo + hi) / 2 ≤ j
          · exact le_trans hd (dateAt_mono l hs hjm (lt_of_lt_of_le hj2 hhl))
          · exact h4 j hj1 (by omega)
      · rw [if_neg hc]
        exact ⟨le_refl _, by omega, fun j h1 h2 => by omega,
          fun j h1 h2 => by omega⟩

/-- The characterization specialized to the call `getNearestDataPoint`
makes: `lo = 1`, `hi = length`. -/
theorem bisectLeft_spec (l : List DatePoint) (x : Int)
    (hs : l.Pairwise (fun a b => a.date < b.date)) (hn : 1 ≤ l.length) :
    1 ≤ bisectLeft l x 1 l.length ∧ bisectLeft l x 1 l.length ≤ l.length ∧
    (∀ j, 1 ≤ j → j < bisectLeft l x 1 l.length → dateAt l j < x) ∧
    (∀ j, bisectLeft l x 1 l.length ≤ j → j < l.length → x ≤ dateAt l j) :=
  bisectLeftFuel_spec l x hs (l.length - 1) 1 l.length (by omega) hn (le_refl _)

/-- The nearest-point lookup returns whatever sits at the insertion index
whenever that slot is empty, regardless of the previous slot. -/
theorem getNearest_of_entry_none (invert : Int → Int) (l : List DatePoint)
    (mouseX : Int)
    (ha : l[bisectLeft l (invert mouseX) 1 l.length]? = none) :
    getNearestDataPoint invert l mouseX = none := by
  show (match l[bisectLeft l (invert mouseX) 1 l.length - 1]?,
      l[bisectLeft l (invert mouseX) 1 l.length]? with
    | some d1, some d0 => some (findOutNearestDate (invert mouseX) d0 d1)
    | _, _ => l[bisectLeft l (invert mouseX) 1 l.length]?) = none
  rw [ha]
  rcases l[bisectLeft l (invert mouseX) 1 l.length - 1]? with _ | d1 <;> rfl

end Brite

/-! ## Claim theorems -/

namespace Brite

/-- C7 counterexample: with `verticalTicks = 5` and value domain `[0, 4]`
the span `4` is smaller than the configured count `5`, so the claim
predicts `min 5 4 = 4` ticks, but `buildAxis` computes `5`: the source
clamps only when the span is below `verticalTicks - 1`. -/
theorem yTickNumber_claim_counterexample :
    (4 : ℚ) - 0 < 5 ∧ yTickNumber 0 4 5 ≠ min 5 ((4 : ℚ) - 0) := by
  constructor
  · norm_num
  · norm_num [yTickNumber]

/-- C7 (amended): the y tick count equals the configured `verticalTicks`
unless the value-domain span is smaller than `verticalTicks - 1`, in which
case it is clamped to `min verticalTicks span` (the span itself). -/
theorem yTickNumber_clamp (domain0 domain1 verticalTicks : ℚ) :
    yTickNumber domain0 domain1 verticalTicks =
      if domain1 - domain0 < verticalTicks - 1 then
        min verticalTicks (domain1 - domain0)
      else verticalTicks := by
  show (if domain1 - domain0 < verticalTicks - 1 then domain1 - domain0
    else verticalTicks) = _
  by_cases h : domain1 - domain0 < verticalTicks - 1
  · rw [if_pos h, if_pos h, min_eq_right (by linarith)]
  · rw [if_neg h, if_neg h]

/-- C6: for a non-empty cleaned dataset the value scale is given, before
nicing, the domain `[0, |maxValue|]` — the lower bound is the constant `0`
produced by the dead conditional `Math.abs(minY) < 0`, even for negative
data — and the inverted pixel range `[chartHeight, 0]`. -/
theorem buildScales_value_scale (ts : List CleanTopic) (w h : ℚ)
    (_hne : ts ≠ []) :
    (buildScales ts w h).yDomain =
      (some 0, (jsMaxO (valuesOf ts)).map (fun q => |q|)) ∧
    (buildScales ts w h).yRange = (h, 0) := by
  refine ⟨?_, rfl⟩
  show (if ltO (absO _) 0 then absO _ else some 0, absO _) = _
  rw [ltO_absO_zero, if_neg (by simp)]
  have : jsMaxO (ts.map (fun t => jsMaxO (t.dates.map (fun d => d.value)))) =
      jsMaxO (valuesOf ts) := by
    rw [valuesOf, jsMaxO_flatten, List.map_map]; rfl
  rw [show absO (jsMaxO (ts.map (fun t => jsMaxO (t.dates.map (fun d => d.value))))) =
      (jsMaxO (valuesOf ts)).map (fun q => |q|) by rw [this]; rfl]

/-- C6 witness: a dataset whose minimum value is negative still gets the
value-scale domain `[0, |maxValue|]` and the range `[50, 0]`. -/
theorem buildScales_value_scale_witness :
    ([⟨"A", 1, [⟨some 0, some (-5)⟩, ⟨some 10, some 3⟩]⟩] : List CleanTopic) ≠ [] ∧
    ((buildScales [⟨"A", 1, [⟨some 0, some (-5)⟩, ⟨some 10, some 3⟩]⟩] 100 50).yDomain =
      (some 0, (jsMaxO (valuesOf [⟨"A", 1, [⟨some 0, some (-5)⟩, ⟨some 10, some 3⟩]⟩])).map
        (fun q => |q|)) ∧
     (buildScales [⟨"A", 1, [⟨some 0, some (-5)⟩, ⟨some 10, some 3⟩]⟩] 100 50).yRange =
      (50, 0)) :=
  ⟨by decide, buildScales_value_scale _ 100 50 (by decide)⟩

/-- C8 counterexample: for an absent dataset (`dataByTopic` undefined) the
claim fails on both counts: normalization passes `undefined` through (the
by-topic output is not an empty sequence), and scale building on that
output fails (reading `.length` of `undefined` inside `d3.min` throws)
instead of producing degenerate scales. -/
theorem absent_dataset_counterexample :
    (cleanData parseId toNumId ⟨none, none⟩).dataByTopic = none ∧
    (cleanData parseId toNumId ⟨none, none⟩).dataByTopic ≠ some [] ∧
    buildScalesOpt (cleanData parseId toNumId ⟨none, none⟩).dataByTopic 100 50 =
      none := by
  refine ⟨rfl, ?_, rfl⟩
  decide

/-- C8 (amended): for an empty dataset (zero topics) normalization returns
empty by-topic and by-date outputs and scale building succeeds, producing
degenerate scales whose domains are undefined/NaN (not identity scales);
for an absent dataset normalization passes the absent value through
unchanged and scale building fails on it. -/
theorem empty_vs_absent_dataset (w h : ℚ)
    (dbd : Option (List (DateEntry Nat ℚ))) :
    cleanData parseId toNumId ⟨some [], dbd⟩ =
      ⟨some [], some []⟩ ∧
    buildScalesOpt (some ([] : List CleanTopic)) w h =
      some ⟨(none, none), (0, w), (some 0, none), (h, 0), []⟩ ∧
    cleanData parseId toNumId ⟨none, dbd⟩ = ⟨none, dbd⟩ ∧
    buildScalesOpt (none : Option (List CleanTopic)) w h = none :=
  ⟨rfl, rfl, rfl, rfl⟩

/-- C4 counterexample: a dataset whose second sample has an unparsable date
(raw key 99).  The claim predicts the whole normalization fails with a
`DataFormatError` and no dataset is returned; instead `cleanData` returns
complete outputs in which the malformed sample survives as an
Invalid-Date entry, in both indices. -/
theorem malformed_date_returns_dataset :
    (cleanData parseFail toNumId
        ⟨some [⟨"A", 1, [⟨5, 3⟩, ⟨99, 4⟩]⟩], none⟩).dataByTopic =
      some [⟨"A", 1, [⟨some 5, some 3⟩, ⟨none, some 4⟩]⟩] ∧
    (cleanData parseFail toNumId
        ⟨some [⟨"A", 1, [⟨5, 3⟩, ⟨99, 4⟩]⟩], none⟩).dataByDate =
      some [⟨some 5, [⟨"A", 1, 5, 3⟩]⟩, ⟨none, [⟨"A", 1, 99, 4⟩]⟩] := by
  constructor <;> rfl

/-- C1 counterexample: one topic whose raw dates appear out of order (raw
keys 50, 30, 51 parsing to timestamps 5, 3, 5).  The with-topics input is
non-empty, yet the by-date index produced by `cleanData` is not sorted
ascending — it follows first-appearance order — and it holds two distinct
entries with the same parsed date 5, because the grouping key is the raw
key (string) rather than the parsed timestamp. -/
theorem byDate_unsorted_counterexample :
    (⟨some [⟨"A", 1, [⟨50, 1⟩, ⟨30, 2⟩, ⟨51, 3⟩]⟩], none⟩ :
        RawInput Nat ℚ).dataByTopic ≠ some [] ∧
    sortedStrictB
      (((cleanData parseDiv10 toNumId
          ⟨some [⟨"A", 1, [⟨50, 1⟩, ⟨30, 2⟩, ⟨51, 3⟩]⟩], none⟩).dataByDate.getD
        []).map (fun e => e.date)) = false ∧
    (((cleanData parseDiv10 toNumId
        ⟨some [⟨"A", 1, [⟨50, 1⟩, ⟨30, 2⟩, ⟨51, 3⟩]⟩], none⟩).dataByDate.getD
      []).filter (fun e => e.date = some 5)).length = 2 := by
  refine ⟨by decide, by decide, by decide⟩

/-- C1 (amended): for any present by-topic input, the by-date index holds
exactly one entry per distinct raw date key — grouping by raw-key equality,
not parsed-timestamp equality — in order of first appearance across the
flattened samples (hence ascending only when the input already is), each
entry pairing the parsed key with the flat records carrying that exact raw
key; the keys are pairwise distinct. -/
theorem byDate_first_appearance_grouping {K V : Type} [DecidableEq K]
    (parseDate : K → Option Int) (toNum : V → Option ℚ)
    (ts : List (RawTopic K V)) (dbd : Option (List (DateEntry K V))) :
    (cleanData parseDate toNum ⟨some ts, dbd⟩).dataByDate =
      some ((dedupFirst ((flatOf ts).map (fun i => i.date))).map
        (fun k => ⟨parseDate k, (flatOf ts).filter (fun i => i.date = k)⟩)) ∧
    (dedupFirst ((flatOf ts).map (fun i => i.date))).Nodup :=
  ⟨cleanData_byDate_eq parseDate toNum ts dbd, nodup_dedupFirst _⟩

/-- C5 counterexample: one topic (id 1) with two samples of value 7 whose
raw date keys 50 and 51 both parse to timestamp 5.  The parsed triple
`(1, 5, 7)` is present in the by-topic index but appears inside the topic
lists of two different by-date entries, not exactly one. -/
theorem triple_in_two_entries_counterexample :
    (1, some 5, some (7 : ℚ)) ∈
      topicTriples ((cleanData parseDiv10 toNumId
        ⟨some [⟨"A", 1, [⟨50, 7⟩, ⟨51, 7⟩]⟩], none⟩).dataByTopic.getD []) ∧
    (((cleanData parseDiv10 toNumId
        ⟨some [⟨"A", 1, [⟨50, 7⟩, ⟨51, 7⟩]⟩], none⟩).dataByDate.getD []).filter
      (fun e => (1, some 5, some (7 : ℚ)) ∈
        entryTriples parseDiv10 toNumId e)).length = 2 := by
  refine ⟨by decide, by decide⟩

/-- C5 (amended): a parsed `(topic, date, value)` triple is present in the
normalized by-topic index exactly when it occurs inside some by-date
entry's topic list; and provided date parsing is injective on the raw keys
the dataset uses (no two distinct raw keys denote the same instant), every
triple of the by-topic index occurs inside exactly one by-date entry's
topic list. -/
theorem byTopic_byDate_roundtrip {K V : Type} [DecidableEq K]
    (parseDate : K → Option Int) (toNum : V → Option ℚ)
    (ts : List (RawTopic K V)) (dbd : Option (List (DateEntry K V))) :
    ∀ tr : Nat × Option Int × Option ℚ,
      (tr ∈ topicTriples
          ((cleanData parseDate toNum ⟨some ts, dbd⟩).dataByTopic.getD []) ↔
        ∃ e ∈ (cleanData parseDate toNum ⟨some ts, dbd⟩).dataByDate.getD [],
          tr ∈ entryTriples parseDate toNum e) ∧
      ((∀ k1 ∈ (flatOf ts).map (fun i => i.date),
          ∀ k2 ∈ (flatOf ts).map (fun i => i.date),
          parseDate k1 = parseDate k2 → k1 = k2) →
        tr ∈ topicTriples
          ((cleanData parseDate toNum ⟨some ts, dbd⟩).dataByTopic.getD []) →
        (((cleanData parseDate toNum ⟨some ts, dbd⟩).dataByDate.getD
          []).filter (fun e => tr ∈ entryTriples parseDate toNum e)).length =
          1) := by
  intro tr
  have hbt : (cleanData parseDate toNum ⟨some ts, dbd⟩).dataByTopic.getD [] =
      ts.map (fun t => ⟨t.topicName, t.topic,
        t.dates.map (fun d => ⟨parseDate d.date, toNum d.value⟩)⟩) := rfl
  have hbd : (cleanData parseDate toNum ⟨some ts, dbd⟩).dataByDate.getD [] =
      (dedupFirst ((flatOf ts).map (fun i => i.date))).map
        (fun k => ⟨parseDate k, (flatOf ts).filter (fun i => i.date = k)⟩) := by
    rw [cleanData_byDate_eq]
    rfl
  rw [hbt, hbd, topicTriples_eq]
  constructor
  · constructor
    · intro htr
      obtain ⟨i, hi, rfl⟩ := List.mem_map.mp htr
      refine ⟨⟨parseDate i.date, (flatOf ts).filter (fun j => j.date = i.date)⟩,
        ?_, ?_⟩
      · exact List.mem_map.mpr ⟨i.date,
          mem_dedupFirst.mpr (List.mem_map_of_mem _ hi), rfl⟩
      · exact List.mem_map.mpr ⟨i, List.mem_filter.mpr ⟨hi, by simp⟩, rfl⟩
    · rintro ⟨e, he, hte⟩
      obtain ⟨k, _, rfl⟩ := List.mem_map.mp he
      obtain ⟨i, hif, hit⟩ := List.mem_map.mp hte
      exact List.mem_map.mpr ⟨i, (List.mem_filter.mp hif).1, hit⟩
  · intro hinj htr
    obtain ⟨i, hi, rfl⟩ := List.mem_map.mp htr
    rw [List.filter_map, List.length_map]
    have hpt : ∀ k ∈ dedupFirst ((flatOf ts).map (fun i => i.date)),
        decide (itemTriple parseDate toNum i ∈ entryTriples parseDate toNum
          ⟨parseDate k, (flatOf ts).filter (fun j => j.date = k)⟩) =
        decide (k = i.date) := by
      intro k hk
      rw [decide_eq_decide]
      constructor
      · intro h
        obtain ⟨j, hjf, hjt⟩ := List.mem_map.mp h
        obtain ⟨hjm, hjd⟩ := List.mem_filter.mp hjf
        have hjd : j.date = k := by simpa using hjd
        have hpe : parseDate j.date = parseDate i.date :=
          congrArg (fun tr => tr.2.1) hjt
        have hji := hinj j.date (List.mem_map_of_mem _ hjm) i.date
          (List.mem_map_of_mem _ hi) hpe
        rw [← hjd]
        exact hji
      · intro h
        subst h
        exact List.mem_map.mpr ⟨i, List.mem_filter.mpr ⟨hi, by simp⟩, rfl⟩
    simp only [Function.comp_def]
    rw [List.filter_congr hpt]
    have hmem : i.date ∈ dedupFirst ((flatOf ts).map (fun i => i.date)) :=
      mem_dedupFirst.mpr (List.mem_map_of_mem _ hi)
    rw [← List.countP_eq_length_filter]
    exact List.count_eq_one_of_mem (nodup_dedupFirst _) hmem

/-- C5 witness: a two-topic dataset with injective date parsing; the
round-trip and the exactly-one-entry property hold for every triple. -/
theorem byTopic_byDate_roundtrip_witness :
    (∀ k1 ∈ (flatOf [⟨"A", 1, [⟨5, 1⟩, ⟨7, 2⟩]⟩, ⟨"B", 2, [⟨5, 4⟩]⟩]).map
        (fun i => i.date),
      ∀ k2 ∈ (flatOf [⟨"A", 1, [⟨5, 1⟩, ⟨7, 2⟩]⟩, ⟨"B", 2, [⟨5, 4⟩]⟩]).map
        (fun i => i.date),
      parseId k1 = parseId k2 → k1 = k2) ∧
    ∀ tr : Nat × Option Int × Option ℚ,
      (tr ∈ topicTriples ((cleanData parseId toNumId
          ⟨some [⟨"A", 1, [⟨5, 1⟩, ⟨7, 2⟩]⟩, ⟨"B", 2, [⟨5, 4⟩]⟩],
            none⟩).dataByTopic.getD []) ↔
        ∃ e ∈ (cleanData parseId toNumId
            ⟨some [⟨"A", 1, [⟨5, 1⟩, ⟨7, 2⟩]⟩, ⟨"B", 2, [⟨5, 4⟩]⟩],
              none⟩).dataByDate.getD [],
          tr ∈ entryTriples parseId toNumId e) ∧
      (tr ∈ topicTriples ((cleanData parseId toNumId
          ⟨some [⟨"A", 1, [⟨5, 1⟩, ⟨7, 2⟩]⟩, ⟨"B", 2, [⟨5, 4⟩]⟩],
            none⟩).dataByTopic.getD []) →
        (((cleanData parseId toNumId
            ⟨some [⟨"A", 1, [⟨5, 1⟩, ⟨7, 2⟩]⟩, ⟨"B", 2, [⟨5, 4⟩]⟩],
              none⟩).dataByDate.getD []).filter
          (fun e => tr ∈ entryTriples parseId toNumId e)).length = 1) :=
  ⟨by decide, fun tr =>
    ⟨(byTopic_byDate_roundtrip parseId toNumId _ none tr).1,
     fun htr =>
       (byTopic_byDate_roundtrip parseId toNumId _ none tr).2 (by decide) htr⟩⟩

/-- A two-entry sorted by-date index used by the interaction examples. -/
def byDateEx : List DatePoint := [⟨0, []⟩, ⟨10, []⟩]

/-- C2: on a strictly ascending by-date index, whenever both the entry at
the bisection insertion index and the one immediately before it exist, the
lookup returns the one strictly closer to the inverted date by absolute
time distance, and the earlier (previous) entry when the two are exactly
equidistant: the returned entry is `d0` (at the insertion index) exactly
when the previous entry's distance is strictly larger. -/
theorem nearest_point_closer_tiebreak (invert : Int → Int)
    (l : List DatePoint) (mouseX : Int)
    (hs : l.Pairwise (fun a b => a.date < b.date))
    (hlt : bisectLeft l (invert mouseX) 1 l.length < l.length) :
    ∃ d0 d1,
      l[bisectLeft l (invert mouseX) 1 l.length]? = some d0 ∧
      l[bisectLeft l (invert mouseX) 1 l.length - 1]? = some d1 ∧
      getNearestDataPoint invert l mouseX =
        some (if |invert mouseX - d1.date| > |invert mouseX - d0.date|
          then d0 else d1) := by
  have hn : 1 ≤ l.length := by omega
  obtain ⟨h1, h2, h3, h4⟩ := bisectLeft_spec l (invert mouseX) hs hn
  have hprev : bisectLeft l (invert mouseX) 1 l.length - 1 < l.length := by
    omega
  refine ⟨l[bisectLeft l (invert mouseX) 1 l.length],
    l[bisectLeft l (invert mouseX) 1 l.length - 1],
    List.getElem?_eq_getElem hlt, List.getElem?_eq_getElem hprev, ?_⟩
  have hxle : invert mouseX ≤
      l[bisectLeft l (invert mouseX) 1 l.length].date := by
    have h := h4 _ (le_refl _) hlt
    rwa [dateAt, List.getD_eq_getElem _ _ hlt] at h
  have hplt : l[bisectLeft l (invert mouseX) 1 l.length - 1].date <
      l[bisectLeft l (invert mouseX) 1 l.length].date :=
    List.pairwise_iff_getElem.mp hs _ _ hprev hlt (by omega)
  show (match l[bisectLeft l (invert mouseX) 1 l.length - 1]?,
      l[bisectLeft l (invert mouseX) 1 l.length]? with
    | some d1, some d0 => some (findOutNearestDate (invert mouseX) d0 d1)
    | _, _ => l[bisectLeft l (invert mouseX) 1 l.length]?) = _
  rw [List.getElem?_eq_getElem hlt, List.getElem?_eq_getElem hprev]
  show some (findOutNearestDate (invert mouseX)
    l[bisectLeft l (invert mouseX) 1 l.length]
    l[bisectLeft l (invert mouseX) 1 l.length - 1]) = _
  rw [findOutNearestDate]
  have hiff : (invert mouseX - l[bisectLeft l (invert mouseX) 1 l.length].date >
      l[bisectLeft l (invert mouseX) 1 l.length - 1].date - invert mouseX) ↔
      (|invert mouseX - l[bisectLeft l (invert mouseX) 1 l.length - 1].date| >
       |invert mouseX - l[bisectLeft l (invert mouseX) 1 l.length].date|) := by
    rw [abs_of_nonpos
      (by omega : invert mouseX -
        l[bisectLeft l (invert mouseX) 1 l.length].date ≤ 0)]
    rcases le_or_lt l[bisectLeft l (invert mouseX) 1 l.length - 1].date
        (invert mouseX) with hc | hc
    · rw [abs_of_nonneg (by omega)]
      constructor <;> intro <;> omega
    · rw [abs_of_neg (by omega)]
      constructor <;> intro <;> omega
  rw [if_congr hiff rfl rfl]

/-- C2 witness: on the sorted two-entry index with dates 0 and 10, a query
whose inverted date is 4 has both candidates available, and the lookup
returns the strictly closer earlier entry. -/
theorem nearest_point_closer_tiebreak_witness :
    byDateEx.Pairwise (fun a b => a.date < b.date) ∧
    bisectLeft byDateEx (id (4 : Int)) 1 byDateEx.length < byDateEx.length ∧
    ∃ d0 d1,
      byDateEx[bisectLeft byDateEx (id (4 : Int)) 1 byDateEx.length]? =
        some d0 ∧
      byDateEx[bisectLeft byDateEx (id (4 : Int)) 1 byDateEx.length - 1]? =
        some d1 ∧
      getNearestDataPoint id byDateEx 4 =
        some (if |id (4 : Int) - d1.date| > |id (4 : Int) - d0.date|
          then d0 else d1) :=
  ⟨by decide, by decide,
    nearest_point_closer_tiebreak id byDateEx 4 (by decide) (by decide)⟩

/-- C3 counterexample: on the non-empty, strictly ascending index with
dates 0 and 10, a query whose inverted date 20 lies after the last date
returns `undefined` rather than the nearest endpoint entry: the bisection
insertion index is the length, the slot there is empty, and the else-branch
of `getNearestDataPoint` returns that empty slot. -/
theorem nearest_point_past_end_counterexample :
    byDateEx ≠ [] ∧
    byDateEx.Pairwise (fun a b => a.date < b.date) ∧
    (∀ d ∈ byDateEx, d.date < id (20 : Int)) ∧
    getNearestDataPoint id byDateEx 20 = none := by
  refine ⟨by decide, by decide, by decide, by decide⟩

/-- C3 (amended): on a strictly ascending by-date index, a query whose
inverted date lies before the first date returns the first entry provided
the index has at least two entries; a query whose inverted date lies
strictly after the last date returns `undefined`; every query on a
single-entry index returns `undefined`; and every query on an empty index
returns `undefined`. -/
theorem nearest_point_boundary_behavior (invert : Int → Int)
    (l : List DatePoint) (mouseX : Int)
    (hs : l.Pairwise (fun a b => a.date < b.date)) :
    (∀ d, l.head? = some d → invert mouseX < d.date → 2 ≤ l.length →
      getNearestDataPoint invert l mouseX = some d) ∧
    (∀ d, l.getLast? = some d → d.date < invert mouseX →
      getNearestDataPoint invert l mouseX = none) ∧
    (l.length = 1 → getNearestDataPoint invert l mouseX = none) ∧
    (l = [] → getNearestDataPoint invert l mouseX = none) := by
  refine ⟨?_, ?_, ?_, ?_⟩
  · intro d hhead hxd h2len
    have hpos : 1 ≤ l.length := by omega
    obtain ⟨h1, h2, h3, h4⟩ := bisectLeft_spec l (invert mouseX) hs hpos
    rw [List.head?_eq_getElem?] at hhead
    have h0lt : 0 < l.length := by omega
    have h1lt : 1 < l.length := by omega
    have hdeq : l[0] = d := by
      rw [List.getElem?_eq_getElem h0lt] at hhead
      injection hhead
    have hd0d : dateAt l 0 = d.date := by
      rw [dateAt, List.getD_eq_getElem _ _ h0lt, hdeq]
    have hieq : bisectLeft l (invert mouseX) 1 l.length = 1 := by
      by_contra hne
      have h2le : 2 ≤ bisectLeft l (invert mouseX) 1 l.length := by omega
      have hd1 : dateAt l 1 < invert mouseX := h3 1 (le_refl 1) (by omega)
      have hmono : dateAt l 0 ≤ dateAt l 1 := dateAt_mono l hs (by omega) h1lt
      omega
    show (match l[bisectLeft l (invert mouseX) 1 l.length - 1]?,
        l[bisectLeft l (invert mouseX) 1 l.length]? with
      | some d1, some d0 => some (findOutNearestDate (invert mouseX) d0 d1)
      | _, _ => l[bisectLeft l (invert mouseX) 1 l.length]?) = some d
    rw [hieq]
    simp only [Nat.sub_self]
    rw [List.getElem?_eq_getElem h1lt, List.getElem?_eq_getElem h0lt, hdeq]
    show some (findOutNearestDate (invert mouseX) l[1] d) = some d
    have hplt : d.date < l[1].date := by
      have h := List.pairwise_iff_getElem.mp hs 0 1 h0lt h1lt (by omega)
      rwa [hdeq] at h
    rw [findOutNearestDate, if_neg (by omega)]
  · intro d hlast hdx
    rcases Nat.eq_zero_or_pos l.length with hz | hpos
    · rw [List.length_eq_zero.mp hz] at hlast
      cases hlast
    · obtain ⟨h1, h2, h3, h4⟩ := bisectLeft_spec l (invert mouseX) hs hpos
      have hlen1 : l.length - 1 < l.length := by omega
      have hlastd : dateAt l (l.length - 1) = d.date := by
        rw [List.getLast?_eq_getElem?, List.getElem?_eq_getElem hlen1] at hlast
        rw [dateAt, List.getD_eq_getElem _ _ hlen1]
        injection hlast with h
        rw [h]
      have hieq : bisectLeft l (invert mouseX) 1 l.length = l.length := by
        by_contra hne
        have hilt : bisectLeft l (invert mouseX) 1 l.length < l.length :=
          lt_of_le_of_ne h2 hne
        have hx1 : invert mouseX ≤
            dateAt l (bisectLeft l (invert mouseX) 1 l.length) :=
          h4 _ (le_refl _) hilt
        have hmono : dateAt l (bisectLeft l (invert mouseX) 1 l.length) ≤
            dateAt l (l.length - 1) := dateAt_mono l hs (by omega) hlen1
        omega
      apply getNearest_of_entry_none
      rw [hieq]
      exact List.getElem?_eq_none (le_refl _)
  · intro h1len
    obtain ⟨a, rfl⟩ := List.length_eq_one.mp h1len
    rfl
  · intro h
    subst h
    rfl

/-- C3 amended witness: the boundary behavior instantiated on the sorted
two-entry index with dates 0 and 10 at query position -7. -/
theorem nearest_point_boundary_behavior_witness :
    byDateEx.Pairwise (fun a b => a.date < b.date) ∧
    ((∀ d, byDateEx.head? = some d → id (-7 : Int) < d.date →
        2 ≤ byDateEx.length →
      getNearestDataPoint id byDateEx (-7) = some d) ∧
     (∀ d, byDateEx.getLast? = some d → d.date < id (-7 : Int) →
      getNearestDataPoint id byDateEx (-7) = none) ∧
     (byDateEx.length = 1 → getNearestDataPoint id byDateEx (-7) = none) ∧
     (byDateEx = [] → getNearestDataPoint id byDateEx (-7) = none)) :=
  ⟨by decide, nearest_point_boundary_behavior id byDateEx (-7) (by decide)⟩

/-- JS `<` on the color stand-ins used by the concrete interaction
examples: single characters in place of the palette's color strings (JS
compares the strings lexicographically, same relative order). -/
def ltChar : Char → Char → Bool := fun a b => decide (a < b)

/-- C9 (code bug): the comparator
`(a, b) => topicColorMap[a.name] < topicColorMap[b.name]` returns a
boolean, which `Array.prototype.sort` coerces to 0/1 — never a negative
number — so the result is not sorted by the color-map ordering.  Concretely
with palette order `b < g` assigned to topics 1 and 2: topic 1's color
precedes topic 2's (first conjunct), the falsy slot is dropped, yet the
sort emits topic 2 first (second conjunct), the reverse of the color-map
order the code's own comment promises. -/
theorem highlight_sort_not_by_color_order :
    ltColorO ltChar (topicColorMap ['b', 'g'] [1, 2] 1)
        (topicColorMap ['b', 'g'] [1, 2] 2) = true ∧
    highlightDataPoints ltChar (topicColorMap ['b', 'g'] [1, 2])
        [some ⟨1, 10⟩, none, some ⟨2, 20⟩] = [⟨2, 20⟩, ⟨1, 10⟩] := by
  constructor <;> decide

/-- C10: `handleMouseMove` emits its `customMouseMove` event, moves the
vertical marker and rebuilds the highlight circles only when
`getNearestDataPoint` located a data point at the offset cursor position;
when the lookup comes back empty the invocation has no observable effect. -/
theorem handleMouseMove_requires_point {Color : Type} (invert xsc : Int → Int)
    (ltc : Color → Color → Bool) (cmap : Nat → Option Color)
    (marginLeft : Int) (dataByDate : List DatePoint) (mouseX : Int) :
    (getNearestDataPoint invert dataByDate (mouseX + -marginLeft) = none →
      handleMouseMove invert xsc ltc cmap marginLeft dataByDate mouseX = none) ∧
    (∀ e, handleMouseMove invert xsc ltc cmap marginLeft dataByDate mouseX =
        some e →
      ∃ p, getNearestDataPoint invert dataByDate (mouseX + -marginLeft) =
          some p ∧
        e = ⟨xsc p.date, highlightDataPoints ltc cmap p.topics, p,
             xsc p.date⟩) := by
  constructor
  · intro h
    simp [handleMouseMove, h]
  · intro e he
    replace he :
        (match getNearestDataPoint invert dataByDate (mouseX + -marginLeft) with
          | none => none
          | some dataPoint =>
              some (⟨xsc dataPoint.date,
                highlightDataPoints ltc cmap dataPoint.topics, dataPoint,
                xsc dataPoint.date⟩ : MouseMoveEffects)) = some e := he
    cases h : getNearestDataPoint invert dataByDate (mouseX + -marginLeft) with
    | none => rw [h] at he; cases he
    | some p =>
        rw [h] at he
        exact ⟨p, rfl, by injection he with h2; rw [h2]⟩

/-- C10 witness: with an empty by-date index the lookup fails and the
mouse-move handler produces no marker movement, highlight or event. -/
theorem handleMouseMove_requires_point_witness :
    getNearestDataPoint id ([] : List DatePoint) ((5 : Int) + -(2 : Int)) =
      none ∧
    handleMouseMove id id ltChar (fun _ => none) 2 [] 5 = none :=
  ⟨by decide,
    (handleMouseMove_requires_point id id ltChar (fun _ => none) 2 [] 5).1
      (by decide)⟩

/-- C4 (amended): an unparsable date or value does not fail normalization;
the offending sample is silently carried through as an Invalid Date / NaN
value, a complete (not partial) normalized dataset is returned with no
error of any kind, and scales are still built from it. -/
theorem malformed_date_carried_through :
    cleanData parseFail toNumId ⟨some [⟨"A", 1, [⟨5, 3⟩, ⟨99, 4⟩]⟩], none⟩ =
      ⟨some [⟨"A", 1, [⟨some 5, some 3⟩, ⟨none, some 4⟩]⟩],
       some [⟨some 5, [⟨"A", 1, 5, 3⟩]⟩, ⟨none, [⟨"A", 1, 99, 4⟩]⟩]⟩ ∧
    (buildScalesOpt (cleanData parseFail toNumId
        ⟨some [⟨"A", 1, [⟨5, 3⟩, ⟨99, 4⟩]⟩], none⟩).dataByTopic 100 50).isSome =
      true := by
  constructor <;> rfl

end Brite
